import Mathlib

/-!
Verification of the qrank-builder pipeline (cmd/qrank-builder).

Go byte strings are modelled as `List Nat` (each entry a byte value);
Unicode code points as `Nat`.  Input text lines read by the scanner are
modelled as Lean `String`s (their UTF-8 bytes are recovered with
`strBytes`).
-/

namespace QRank

/-- Byte strings, as used by Go `string`/`[]byte`. -/
abbrev Bytes := List Nat

/-- UTF-8 encoding of one code point, as Go `utf8.EncodeRune`:
surrogates and out-of-range values encode the replacement char U+FFFD. -/
def utf8EncodeCp (c : Nat) : Bytes :=
  if c < 0x80 then [c]
  else if c < 0x800 then [0xC0 + c / 64, 0x80 + c % 64]
  else if 0xD800 ≤ c ∧ c < 0xE000 then [0xEF, 0xBF, 0xBD]
  else if c < 0x10000 then [0xE0 + c / 4096, 0x80 + (c / 64) % 64, 0x80 + c % 64]
  else if c < 0x110000 then
    [0xF0 + c / 262144, 0x80 + (c / 4096) % 64, 0x80 + (c / 64) % 64, 0x80 + c % 64]
  else [0xEF, 0xBF, 0xBD]

/-- UTF-8 bytes of a list of characters. -/
def charsToBytes (l : List Char) : Bytes :=
  l.flatMap (fun c => utf8EncodeCp c.toNat)

/-- UTF-8 bytes of a Lean string. -/
def strBytes (s : String) : Bytes := charsToBytes s.data

/-- Is `b` a UTF-8 continuation byte? -/
def isCont (b : Nat) : Bool := decide (0x80 ≤ b ∧ b ≤ 0xBF)

/-- Is `b` an ASCII byte (a one-byte sequence)? -/
def isAscii (b : Nat) : Bool := decide (b < 0x80)

/-- Is `b` the leading byte of a two-byte sequence? -/
def isL2 (b : Nat) : Bool := decide (0xC2 ≤ b ∧ b ≤ 0xDF)

/-- Is `b` the leading byte of a three-byte sequence? -/
def isL3 (b : Nat) : Bool := decide (0xE0 ≤ b ∧ b ≤ 0xEF)

/-- Is `b` the leading byte of a four-byte sequence? -/
def isL4 (b : Nat) : Bool := decide (0xF0 ≤ b ∧ b ≤ 0xF4)

/-- The accepted range of the second byte given the leading byte, as the
`acceptRanges` table of Go's `utf8` package (tighter bounds after `E0`,
`ED`, `F0` and `F4` rule out overlong forms and surrogates). -/
def okB1 (b0 b1 : Nat) : Bool :=
  if b0 = 0xE0 then decide (0xA0 ≤ b1 ∧ b1 ≤ 0xBF)
  else if b0 = 0xED then decide (0x80 ≤ b1 ∧ b1 ≤ 0x9F)
  else if b0 = 0xF0 then decide (0x90 ≤ b1 ∧ b1 ≤ 0xBF)
  else if b0 = 0xF4 then decide (0x80 ≤ b1 ∧ b1 ≤ 0x8F)
  else isCont b1

/-- Go `utf8.ValidString`: strict RFC-3629 well-formedness
(no overlong forms, no surrogates, max U+10FFFF). -/
def utf8Valid : Bytes → Bool
  | [] => true
  | [b0] => isAscii b0
  | [b0, b1] =>
    if isAscii b0 then utf8Valid [b1]
    else isL2 b0 && isCont b1
  | [b0, b1, b2] =>
    if isAscii b0 then utf8Valid [b1, b2]
    else if isL2 b0 then isCont b1 && utf8Valid [b2]
    else isL3 b0 && okB1 b0 b1 && isCont b2
  | b0 :: b1 :: b2 :: b3 :: t =>
    if isAscii b0 then utf8Valid (b1 :: b2 :: b3 :: t)
    else if isL2 b0 then isCont b1 && utf8Valid (b2 :: b3 :: t)
    else if isL3 b0 then okB1 b0 b1 && isCont b2 && utf8Valid (b3 :: t)
    else isL4 b0 && okB1 b0 b1 && isCont b2 && isCont b3 && utf8Valid t

/-- Worker for `utf8DecodeLossy`; the first argument is fuel (one unit
per consumed leading byte), so that the recursion is structural and the
kernel can evaluate it. -/
def udlAux : Nat → Bytes → List Nat
  | 0, _ => []
  | _, [] => []
  | f + 1, b0 :: t =>
    if b0 < 0x80 then b0 :: udlAux f t
    else if 0xC2 ≤ b0 && b0 ≤ 0xDF then
      match t with
      | b1 :: t1 =>
        if isCont b1 then ((b0 - 0xC0) * 64 + (b1 - 0x80)) :: udlAux f t1
        else 0xFFFD :: udlAux f t
      | [] => [0xFFFD]
    else if 0xE0 ≤ b0 && b0 ≤ 0xEF then
      match t with
      | b1 :: b2 :: t2 =>
        if (if b0 == 0xE0 then 0xA0 ≤ b1 && b1 ≤ 0xBF
            else if b0 == 0xED then 0x80 ≤ b1 && b1 ≤ 0x9F
            else isCont b1) && isCont b2 then
          ((b0 - 0xE0) * 4096 + (b1 - 0x80) * 64 + (b2 - 0x80)) :: udlAux f t2
        else 0xFFFD :: udlAux f t
      | _ => 0xFFFD :: udlAux f t
    else if 0xF0 ≤ b0 && b0 ≤ 0xF4 then
      match t with
      | b1 :: b2 :: b3 :: t3 =>
        if (if b0 == 0xF0 then 0x90 ≤ b1 && b1 ≤ 0xBF
            else if b0 == 0xF4 then 0x80 ≤ b1 && b1 ≤ 0x8F
            else isCont b1) && isCont b2 && isCont b3 then
          ((b0 - 0xF0) * 262144 + (b1 - 0x80) * 4096 + (b2 - 0x80) * 64 + (b3 - 0x80))
            :: udlAux f t3
        else 0xFFFD :: udlAux f t
      | _ => 0xFFFD :: udlAux f t
    else 0xFFFD :: udlAux f t

/-- Decode UTF-8 bytes into code points, one replacement char U+FFFD per
offending byte, as Go's for-range loop over a string. -/
def utf8DecodeLossy (l : Bytes) : List Nat := udlAux l.length l

/-- Value of one hex digit byte, as Go's `unhex`. -/
def hexVal (b : Nat) : Option Nat :=
  if 0x30 ≤ b ∧ b ≤ 0x39 then some (b - 0x30)
  else if 0x61 ≤ b ∧ b ≤ 0x66 then some (b - 0x61 + 10)
  else if 0x41 ≤ b ∧ b ≤ 0x46 then some (b - 0x41 + 10)
  else none

/-- Go `url.QueryUnescape`: decode `%XX` escapes (two hex digits required,
otherwise the whole call errors) and turn `+` into a space. -/
def queryUnescape : Bytes → Option Bytes
  | [] => some []
  | b :: rest =>
    if b = 0x25 then
      match rest with
      | x :: y :: rest2 =>
        match hexVal x, hexVal y with
        | some hx, some hy => (queryUnescape rest2).map (fun t => (hx * 16 + hy) :: t)
        | _, _ => none
      | _ => none
    else if b = 0x2B then (queryUnescape rest).map (fun t => 0x20 :: t)
    else (queryUnescape rest).map (fun t => b :: t)

/-- Go `unicode.IsSpace` (the White_Space property) on a code point. -/
def isGoSpace (c : Nat) : Bool :=
  c == 0x9 || c == 0xA || c == 0xB || c == 0xC || c == 0xD || c == 0x20 ||
  c == 0x85 || c == 0xA0 || c == 0x1680 || (0x2000 ≤ c && c ≤ 0x200A) ||
  c == 0x2028 || c == 0x2029 || c == 0x202F || c == 0x205F || c == 0x3000

/-- Worker for `fields`: split around runs of white space. -/
def fieldsAux : List Char → List Char → List (List Char)
  | [], cur => if cur = [] then [] else [cur.reverse]
  | c :: rest, cur =>
    if isGoSpace c.toNat then
      if cur = [] then fieldsAux rest []
      else cur.reverse :: fieldsAux rest []
    else fieldsAux rest (c :: cur)

/-- Go `strings.Fields`: the maximal runs of non-space characters. -/
def fields (s : String) : List (List Char) := fieldsAux s.data []

/-- Worker for `splitSp`. -/
def splitSpAux : List Char → List Char → List (List Char)
  | [], cur => [cur.reverse]
  | c :: rest, cur =>
    if c = ' ' then cur.reverse :: splitSpAux rest []
    else splitSpAux rest (c :: cur)

/-- Go `strings.Split(line, " ")`: split at every single space. -/
def splitSp (l : List Char) : List (List Char) := splitSpAux l []

/-- Is `c` an ASCII decimal digit? -/
def isDigitCh (c : Char) : Bool := 0x30 ≤ c.toNat && c.toNat ≤ 0x39

/-- Accumulate a digit string into a number; `none` if empty or non-digit. -/
def digitsToNat : List Char → Nat → Option Nat
  | [], _ => none
  | l, acc => go l acc
where
  go : List Char → Nat → Option Nat
  | [], acc => some acc
  | c :: rest, acc =>
    if isDigitCh c then go rest (acc * 10 + (c.toNat - 0x30)) else none

/-- Go `strconv.ParseInt(s, 10, 64)`: optional sign, decimal digits only,
`none` on empty input, stray characters, or 64-bit overflow. -/
def parseInt64 (s : List Char) : Option Int :=
  match s with
  | [] => none
  | c :: rest =>
    let p : Bool × List Char :=
      if c = '-' then (true, rest) else if c = '+' then (false, rest) else (false, s)
    match digitsToNat p.2 0 with
    | none => none
    | some n =>
      if p.1 then (if n ≤ 2 ^ 63 then some (-(n : Int)) else none)
      else (if n ≤ 2 ^ 63 - 1 then some (n : Int) else none)

/-- Worker for `natDecDigits` (first argument is fuel). -/
def natDecAux : Nat → Nat → Bytes → Bytes
  | 0, n, acc => (0x30 + n % 10) :: acc
  | f + 1, n, acc =>
    if n < 10 then (0x30 + n) :: acc
    else natDecAux f (n / 10) ((0x30 + n % 10) :: acc)

/-- Decimal digits of a natural number, as bytes
(Go `strconv.FormatInt` on a non-negative value). -/
def natDecDigits (n : Nat) : Bytes := natDecAux n n []

/-- Decimal digits of a natural number, as characters. -/
def natDecChars (n : Nat) : List Char := (natDecDigits n).map Char.ofNat

/-- Wrap an integer into two's-complement int64 range, as Go arithmetic. -/
def i64wrap (n : Int) : Int := (n + 2 ^ 63) % 2 ^ 64 - 2 ^ 63

/-- Go `int64` addition (wrapping silently on overflow). -/
def addI64 (a b : Int) : Int := i64wrap (a + b)

/-- Is `n` representable as an int64? -/
def inI64 (n : Int) : Prop := -(2 ^ 63) ≤ n ∧ n < 2 ^ 63

/-- Index of the first occurrence of byte `x`, as Go `strings.IndexByte`. -/
def idxB : Bytes → Nat → Option Nat
  | [], _ => none
  | b :: t, x => if b = x then some 0 else (idxB t x).map (· + 1)

/-- Index of the first occurrence of character `x` in a character list. -/
def idxCh : List Char → Char → Option Nat
  | [], _ => none
  | c :: t, x => if c = x then some 0 else (idxCh t x).map (· + 1)

/-- Go `strings.SplitN(s, "/", 3)` on a byte string. -/
def splitN3 (t : Bytes) : List Bytes :=
  match idxB t 0x2F with
  | none => [t]
  | some i =>
    let a := t.take i
    let r := t.drop (i + 1)
    match idxB r 0x2F with
    | none => [a, r]
    | some j => [a, r.take j, r.drop (j + 1)]

/-- Modelled from the spec: default Unicode case folding of one code point
(the Go `golang.org/x/text/cases` `Fold` caser, an external dependency whose
tables are not part of this repository).  The table is restricted to Basic
Latin, Latin-1 and Latin Extended-A — the ranges exercised by the spec's
scenarios — and is the identity elsewhere. -/
def foldCp (c : Nat) : List Nat :=
  if 0x41 ≤ c ∧ c ≤ 0x5A then [c + 32]
  else if c = 0xDF then [0x73, 0x73]
  else if 0xC0 ≤ c ∧ c ≤ 0xDE ∧ c ≠ 0xD7 then [c + 32]
  else if c = 0x130 then [0x69, 0x307]
  else if 0x100 ≤ c ∧ c ≤ 0x137 ∧ c % 2 = 0 then [c + 1]
  else if 0x139 ≤ c ∧ c ≤ 0x148 ∧ c % 2 = 1 then [c + 1]
  else if 0x14A ≤ c ∧ c ≤ 0x177 ∧ c % 2 = 0 then [c + 1]
  else if c = 0x178 then [0xFF]
  else if 0x179 ≤ c ∧ c ≤ 0x17E ∧ c % 2 = 1 then [c + 1]
  else if c = 0x17F then [0x73]
  else [c]

/-- Case folding over a code-point sequence. -/
def caseFold (l : List Nat) : List Nat := l.flatMap foldCp

/-- Modelled from the spec: canonical composition of a base code point with
a combining mark (part of Unicode NFC; the Go `golang.org/x/text/unicode/norm`
tables are not part of this repository).  Restricted to the combinations
exercised by the spec's scenarios. -/
def composeCp (a m : Nat) : Option Nat :=
  if m = 0x300 then
    if a = 0x61 then some 0xE0 else if a = 0x65 then some 0xE8
    else if a = 0x69 then some 0xEC else if a = 0x6F then some 0xF2
    else if a = 0x75 then some 0xF9 else none
  else if m = 0x301 then
    if a = 0x61 then some 0xE1 else if a = 0x65 then some 0xE9
    else if a = 0x69 then some 0xED else if a = 0x6F then some 0xF3
    else if a = 0x75 then some 0xFA else none
  else if m = 0x304 then
    if a = 0x61 then some 0x101 else if a = 0x65 then some 0x113
    else if a = 0x69 then some 0x12B else if a = 0x6F then some 0x14D
    else if a = 0x75 then some 0x16B else none
  else if m = 0x308 then
    if a = 0x61 then some 0xE4 else if a = 0x65 then some 0xEB
    else if a = 0x69 then some 0xEF else if a = 0x6F then some 0xF6
    else if a = 0x75 then some 0xFC else none
  else none

/-- Worker for `nfc`: `pending` is the last code point not yet emitted. -/
def nfcAux (pending : Nat) : List Nat → List Nat
  | [] => [pending]
  | m :: rest =>
    match composeCp pending m with
    | some d => nfcAux d rest
    | none => pending :: nfcAux m rest

/-- Modelled from the spec: Unicode NFC normalization of a code-point
sequence (the Go `norm.NFC` form), restricted to the composition table
`composeCp` above. -/
def nfc : List Nat → List Nat
  | [] => []
  | c :: rest => nfcAux c rest

/-- Modelled from the spec: Unicode simple lowercase of one code point
(Go `strings.ToLower`), restricted to Basic Latin, Latin-1 and Latin
Extended-A, identity elsewhere. -/
def lowerCp (c : Nat) : Nat :=
  if 0x41 ≤ c ∧ c ≤ 0x5A then c + 32
  else if 0xC0 ≤ c ∧ c ≤ 0xDE ∧ c ≠ 0xD7 then c + 32
  else if c = 0x130 then 0x69
  else if 0x100 ≤ c ∧ c ≤ 0x137 ∧ c % 2 = 0 then c + 1
  else if 0x139 ≤ c ∧ c ≤ 0x148 ∧ c % 2 = 1 then c + 1
  else if 0x14A ≤ c ∧ c ≤ 0x177 ∧ c % 2 = 0 then c + 1
  else if c = 0x178 then 0xFF
  else if 0x179 ≤ c ∧ c ≤ 0x17E ∧ c % 2 = 1 then c + 1
  else c

/-- Modelled from the spec: Turkic lowercase of one code point
(Go `strings.ToLowerSpecial` with `unicode.TurkishCase` or
`unicode.AzeriCase`, which share the dotted/dotless-I rules):
`I` → `ı` (U+0131), `İ` (U+0130) → `i`, otherwise simple lowercase. -/
def turkicLowerCp (c : Nat) : Nat :=
  if c = 0x49 then 0x131 else if c = 0x130 then 0x69 else lowerCp c

/-- Apply a code-point map to a UTF-8 byte string. -/
def mapCps (f : Nat → Nat) (b : Bytes) : Bytes :=
  ((utf8DecodeLossy b).map f).flatMap utf8EncodeCp

/-- Go `strings.ToLower` on a byte string (spec-modelled table). -/
def toLowerB (b : Bytes) : Bytes := mapCps lowerCp b

/-- Go `strings.ToLowerSpecial(unicode.TurkishCase, ·)` /
`strings.ToLowerSpecial(unicode.AzeriCase, ·)` on a byte string. -/
def turkicLowerB (b : Bytes) : Bytes := mapCps turkicLowerCp b

/-- Shorthand for the UTF-8 bytes of a literal. -/
def B (s : String) : Bytes := strBytes s

/-- The language/site switch at the top of `formatLine`
(util.go lines 83-192), applied to `(lang, site, title)`. -/
def rewriteLangSite (lang site title : Bytes) : Bytes × Bytes × Bytes :=
  if lang = [] then
    (B "und",
     if site = B "wikidatawiki" then B "wikidata"
     else if site = B "wikimaniawiki" then B "wikimania"
     else site,
     title)
  else if lang = B "az" then (lang, site, turkicLowerB title)
  else if lang = B "als" then (B "gsw", site, title)
  else if lang = B "bat_smg" ∨ lang = B "bat-smg" then (B "sgs", site, title)
  else if lang = B "be_x_old" then (B "be-tarask", site, title)
  else if lang = B "cbk_zam" ∨ lang = B "cbk-zam" then (B "cbk-x-zam", site, title)
  else if lang = B "commons" then (B "und", B "commons", title)
  else if lang = B "fiu_vro" ∨ lang = B "fiu-vro" then (B "vro", site, title)
  else if lang = B "incubator" then
    match splitN3 title with
    | [p0, p1, p2] =>
      if (p0 = B "Wp" ∨ p0 = B "wp") ∧ p1.length < 20 then (toLowerB p1, site, p2)
      else (lang, site, title)
    | _ => (lang, site, title)
  else if lang = B "map_bms" ∨ lang = B "map-bms" then (B "jv-x-bms", site, title)
  else if lang = B "media" then (B "und", B "mediawiki", title)
  else if lang = B "meta" then (B "und", B "metawiki", title)
  else if lang = B "roa_rup" ∨ lang = B "roa-rup" then (B "rup", site, title)
  else if lang = B "roa_tara" ∨ lang = B "roa-tara" then (B "nap-x-tara", site, title)
  else if lang = B "simple" then (B "en-x-simple", site, title)
  else if lang = B "sources" then (B "und", B "wikisource", title)
  else if lang = B "species" then (B "und", B "wikispecies", title)
  else if lang = B "nds_nl" ∨ lang = B "nds-nl" then (B "nds-NL", site, title)
  else if lang = B "tr" then (lang, site, turkicLowerB title)
  else if lang = B "zh_classical" ∨ lang = B "zh-classical" then (B "lzh", site, title)
  else if lang = B "zh_min_nan" ∨ lang = B "zh-min-nan" then (B "nan", site, title)
  else if lang = B "zh_yue" ∨ lang = B "zh-yue" then (B "yue", site, title)
  else (lang, site, title)

/-- One emission step of the title loop (util.go lines 202-209): a code
point is written as its UTF-8 bytes unless its first byte is ≤ 0x20, in
which case a single `_` byte is written. -/
def emitCp (c : Nat) : Bytes :=
  let bs := utf8EncodeCp c
  if 0x20 < bs.headD 0 then bs else [0x5F]

/-- The bytes written for the title: case folding, NFC normalization, then
the low-byte replacement loop. -/
def titleEmit (title : Bytes) : Bytes :=
  (nfc (caseFold (utf8DecodeLossy title))).flatMap emitCp

/-- `formatLine` (util.go lines 81-213): rewrite `(lang, site, title)`
through the switch, then write lang, `.`, site, `/`, the folded and
normalized title, one space, and the value. -/
def formatLine (lang site title value : Bytes) : Bytes :=
  match rewriteLangSite lang site title with
  | (l, s, t) => l ++ [0x2E] ++ s ++ [0x2F] ++ titleEmit t ++ [0x20] ++ value

/-- The part of a formatted line before the value: the normalized WikiKey. -/
def wikiKey (lang site title : Bytes) : Bytes :=
  match rewriteLangSite lang site title with
  | (l, s, t) => l ++ [0x2E] ++ s ++ [0x2F] ++ titleEmit t

/-- `emitPageviews` (main.go lines 573-587): emit nothing unless the count
is positive and the site contains a dot; otherwise format one line from the
lang/site parts of the site column, the title and the decimal count. -/
def emitPV (site : List Char) (title : Bytes) (count : Int) : List Bytes :=
  if 0 < count then
    match idxCh site '.' with
    | none => []
    | some d =>
      [formatLine (charsToBytes (site.take d)) (charsToBytes (site.drop (d + 1)))
        title (natDecDigits count.toNat)]
  else []

/-- The per-line validation of `readPageviews` (main.go lines 524-551):
require exactly 6 whitespace-separated columns, drop the obsolete site
`en-wg.wikipedia`, percent-decode the title falling back to the raw bytes,
require the result to be valid UTF-8, and parse column 4 as an int64.
Any failure means the line is skipped. -/
def parsePageviewLine (line : String) : Option (List Char × Bytes × Int) :=
  match fields line with
  | [c0, c1, _, _, c4, _] =>
    if c0 = "en-wg.wikipedia".data then none
    else if utf8Valid ((queryUnescape (charsToBytes c1)).getD (charsToBytes c1)) then
      match parseInt64 c4 with
      | none => none
      | some c => some (c0, (queryUnescape (charsToBytes c1)).getD (charsToBytes c1), c)
    else none
  | _ => none

/-- The scanning loop of `readPageviews` (main.go lines 513-571): group
adjacent rows with equal (site, title), summing their counts with int64
arithmetic, and emit each group through `emitPV`; with `testRun` set,
stop before processing the 500th line.  The final group is flushed at
the end of the input. -/
def rpvLoop (testRun : Bool) :
    Nat → List Char → Bytes → Int → List String → List Bytes
  | _, lastSite, lastTitle, lastCount, [] => emitPV lastSite lastTitle lastCount
  | n, ls, lt, lc, line :: rest =>
    if testRun ∧ 500 ≤ n + 1 then emitPV ls lt lc
    else
      match parsePageviewLine line with
      | none => rpvLoop testRun (n + 1) ls lt lc rest
      | some (site, title, c) =>
        if site = ls ∧ title = lt then rpvLoop testRun (n + 1) ls lt (addI64 lc c) rest
        else emitPV ls lt lc ++ rpvLoop testRun (n + 1) site title c rest

/-- `readPageviews`: run the scanning loop from the empty initial group. -/
def readPageviews (testRun : Bool) (lines : List String) : List Bytes :=
  rpvLoop testRun 0 [] [] 0 lines

/-- `writeCount` (main.go lines 449-473): write nothing for a total ≤ 0,
otherwise one line `key ++ " " ++ decimal ++ "\n"`. -/
def writeCountM (key : List Char) (count : Int) : List (List Char) :=
  if count ≤ 0 then [] else [key ++ ' ' :: (natDecChars count.toNat ++ ['\n'])]

/-- The loop of `combineCounts` (main.go lines 414-447): lines without
exactly 2 space-separated fields are skipped; a parse failure on the count
column aborts with an error; otherwise counts of a run of equal keys are
summed (int64 arithmetic) and flushed through `writeCountM` when the key
changes and at the end of the input. -/
def ccLoop : List Char → Int → List (List Char) → Except Unit (List (List Char))
  | lastKey, lastCount, [] => .ok (writeCountM lastKey lastCount)
  | lk, lc, line :: rest =>
    match splitSp line with
    | [key, cnt] =>
      match parseInt64 cnt with
      | none => .error ()
      | some c =>
        if key = lk then ccLoop lk (addI64 lc c) rest
        else
          match ccLoop key c rest with
          | .ok out => .ok (writeCountM lk lc ++ out)
          | .error e => .error e
    | _ => ccLoop lk lc rest

/-- `combineCounts`: run the combining loop from the empty initial key
with count 0 over the channel's lines. -/
def combineCounts (lines : List String) : Except Unit (List String) :=
  (ccLoop [] 0 (lines.map String.data)).map (fun out => out.map String.mk)

/-! Dates are modelled as day numbers: days since 1970-01-01 (Go's `time`
package stores an equivalent linear count).  `daysFromCivil`/`yearOf` are
the standard civil-calendar conversions for the proleptic Gregorian
calendar used by Go's `time.Date` and `absDate`. -/

/-- The day number of the Gregorian date `(y, m, d)`, as Go
`time.Date(y, m, d, 0, 0, 0, 0, time.UTC)`. -/
def daysFromCivil (y m d : Int) : Int :=
  let y1 : Int := if m ≤ 2 then y - 1 else y
  let era : Int := y1 / 400
  let yoe : Int := y1 - era * 400
  let mp : Int := (m + 9) % 12
  let doy : Int := (153 * mp + 2) / 5 + (d - 1)
  let doe : Int := yoe * 365 + yoe / 4 - yoe / 100 + doy
  era * 146097 + doe - 719468

/-- The Gregorian year containing day number `dn`. -/
def yearOf (dn : Int) : Int :=
  let z : Int := dn + 719468
  let era : Int := z / 146097
  let doe : Int := z - era * 146097
  let yoe : Int := (doe - doe / 1460 + doe / 36524 - doe / 146096) / 365
  let y : Int := yoe + era * 400
  let doy : Int := doe - (365 * yoe + yoe / 4 - yoe / 100)
  let mp : Int := (5 * doy + 2) / 153
  if 10 ≤ mp then y + 1 else y

/-- Weekday of a day number, Go numbering (0 = Sunday … 6 = Saturday);
day 0 (1970-01-01) is a Thursday. -/
def weekday (dn : Int) : Int := (dn + 4) % 7

/-- Go `time.ISOWeek()`: move to the Thursday of the Monday-based week
containing `dn`, then read off that Thursday's year and 0-based day of
year; the week is `yday / 7 + 1`. -/
def isoWeek (dn : Int) : Int × Int :=
  let wd := weekday dn
  let d : Int := if wd = 0 then -3 else 4 - wd
  let th := dn + d
  let y := yearOf th
  let yday := th - daysFromCivil y 1 1
  (y, yday / 7 + 1)

/-- `ISOWeekStart` (util.go lines 386-397): start from July 1 of the year,
back up to the first Monday at or before it, then shift by whole weeks by
the difference between the requested week and that Monday's ISO week. -/
def ISOWeekStart (year week : Int) : Int :=
  let t0 := daysFromCivil year 7 1
  let wd := weekday t0
  let t1 := if wd = 0 then t0 - 6 else t0 - (wd - 1)
  let w := (isoWeek t1).2
  t1 + (week - w) * 7

/-- Numeric value of a digit character list (Go `strconv.Atoi` on the
digit submatches, whose error is ignored by `ParseISOWeek`). -/
def digitsVal (l : List Char) : Nat :=
  l.foldl (fun acc c => acc * 10 + (c.toNat - 0x30)) 0

/-- Does the pattern `(\d{4})-W(\d{2})` match at the head of the
character list?  If so, the values of the two digit groups. -/
def isoGrab : List Char → Option (Nat × Nat)
  | a :: b :: c :: d :: e :: f :: g :: h :: _ =>
    if isDigitCh a && isDigitCh b && isDigitCh c && isDigitCh d &&
        e == '-' && f == 'W' && isDigitCh g && isDigitCh h then
      some (digitsVal [a, b, c, d], digitsVal [g, h])
    else none
  | _ => none

/-- Leftmost match of `(\d{4})-W(\d{2})` (Go
`regexp.FindStringSubmatch` on `ParseISOWeek`'s pattern): scan positions
left to right, return the two submatches' values at the first position
where the pattern matches. -/
def isoFind : List Char → Option (Nat × Nat)
  | [] => none
  | a :: t =>
    match isoGrab (a :: t) with
    | some p => some p
    | none => isoFind t

/-- `ParseISOWeek` (util.go lines 372-381): `none` models the error
return; on a match, the year and week digit groups. -/
def ParseISOWeek (s : String) : Option (Int × Int) :=
  (isoFind s.data).map (fun p => ((p.1 : Int), (p.2 : Int)))

/-- The language aliases rewritten by `formatLine` into a canonical
language tag, site and title untouched. -/
def aliasTable : List (Bytes × Bytes) :=
  [(B "als", B "gsw"),
   (B "bat_smg", B "sgs"), (B "bat-smg", B "sgs"),
   (B "be_x_old", B "be-tarask"),
   (B "cbk_zam", B "cbk-x-zam"), (B "cbk-zam", B "cbk-x-zam"),
   (B "fiu_vro", B "vro"), (B "fiu-vro", B "vro"),
   (B "map_bms", B "jv-x-bms"), (B "map-bms", B "jv-x-bms"),
   (B "nds_nl", B "nds-NL"), (B "nds-nl", B "nds-NL"),
   (B "roa_rup", B "rup"), (B "roa-rup", B "rup"),
   (B "roa_tara", B "nap-x-tara"), (B "roa-tara", B "nap-x-tara"),
   (B "zh_classical", B "lzh"), (B "zh-classical", B "lzh"),
   (B "zh_min_nan", B "nan"), (B "zh-min-nan", B "nan"),
   (B "zh_yue", B "yue"), (B "zh-yue", B "yue"),
   (B "simple", B "en-x-simple")]

/-- The pseudo-languages rewritten by `formatLine` to `und` plus a
canonical site. -/
def siteRewriteTable : List (Bytes × Bytes) :=
  [(B "commons", B "commons"), (B "media", B "mediawiki"),
   (B "meta", B "metawiki"), (B "sources", B "wikisource"),
   (B "species", B "wikispecies")]

/-- Every language the `formatLine` switch matches on. -/
def tableLangs : List Bytes :=
  [[], B "az", B "als", B "bat_smg", B "bat-smg", B "be_x_old",
   B "cbk_zam", B "cbk-zam", B "commons", B "fiu_vro", B "fiu-vro",
   B "incubator", B "map_bms", B "map-bms", B "media", B "meta",
   B "roa_rup", B "roa-rup", B "roa_tara", B "roa-tara", B "simple",
   B "sources", B "species", B "nds_nl", B "nds-nl", B "tr",
   B "zh_classical", B "zh-classical", B "zh_min_nan", B "zh-min-nan",
   B "zh_yue", B "zh-yue"]

/-- The spec's description of one title code point's emission: a code
point whose first UTF-8 byte is ≤ 0x20 becomes a single `_` byte, any
other code point is emitted as its UTF-8 bytes. -/
def emitCpSpec (c : Nat) : Bytes :=
  if (utf8EncodeCp c).headD 0 ≤ 0x20 then [0x5F] else utf8EncodeCp c

/-- The spec's description of the emitted title: case folding, then NFC,
then the per-code-point replacement. -/
def titleSpec (t : Bytes) : Bytes :=
  (nfc (caseFold (utf8DecodeLossy t))).flatMap emitCpSpec

/-- The spec's description of the WikiKey `<lang>.<site>/<title>`. -/
def wikiKeySpec (lang site title : Bytes) : Bytes :=
  match rewriteLangSite lang site title with
  | (l, s, t) => l ++ [0x2E] ++ s ++ [0x2F] ++ titleSpec t

/-- The parsed value of a count column (0 when unparseable; in the
theorems below a hypothesis guarantees parseability). -/
def runVal (cs : List Char) : Int := (parseInt64 cs).getD 0

/-- The channel lines of a sorted, grouped input: for each run
`(key, counts)`, one line `key ++ " " ++ count` per count. -/
def runLines (runs : List (List Char × List (List Char))) : List String :=
  runs.flatMap (fun r => r.2.map (fun cs => String.mk (r.1 ++ ' ' :: cs)))

/-- Character-level view of `runLines`. -/
def runLinesD (runs : List (List Char × List (List Char))) : List (List Char) :=
  runs.flatMap (fun r => r.2.map (fun cs => r.1 ++ ' ' :: cs))

/-- Total count of one run. -/
def runSum (r : List Char × List (List Char)) : Int := (r.2.map runVal).sum

/-- The combiner's expected output: one line per run with positive total,
carrying the summed count. -/
def combinedOut (runs : List (List Char × List (List Char))) : List String :=
  runs.filterMap (fun r =>
    if 0 < runSum r then
      some (String.mk (r.1 ++ ' ' :: (natDecChars (runSum r).toNat ++ ['\n'])))
    else none)

/-- Character-level view of `combinedOut`. -/
def combinedOutD (runs : List (List Char × List (List Char))) : List (List Char) :=
  runs.filterMap (fun r =>
    if 0 < runSum r then
      some (r.1 ++ ' ' :: (natDecChars (runSum r).toNat ++ ['\n']))
    else none)

end QRank

example : QRank.strBytes "ä5" = [0xC3, 0xA4, 0x35] := by decide

example : "ab c".data = ['a', 'b', ' ', 'c'] := rfl

example : QRank.utf8Valid (QRank.strBytes "Ägypten") = true := by decide

example : QRank.utf8Valid [0xFF] = false := by decide

example : QRank.utf8DecodeLossy (QRank.strBytes "Äg") = [0xC4, 0x67] := by decide

example : QRank.queryUnescape (QRank.strBytes "a%C3%84+b") =
    some (QRank.strBytes "aÄ b") := by decide

example : QRank.queryUnescape (QRank.strBytes "a%zz") = none := by decide

example : QRank.queryUnescape (QRank.strBytes "a%FF") = some [0x61, 0xFF] := by decide

example : QRank.fields "  als.wikipedia  Ägypten 4623 " =
    ["als.wikipedia".data, "Ägypten".data, "4623".data] := by decide

example : QRank.splitSp "a b".data = ["a".data, "b".data] := by decide

example : QRank.splitSp "a  b".data = ["a".data, [], "b".data] := by decide

example : QRank.parseInt64 "4623".data = some 4623 := by decide

example : QRank.parseInt64 "-17".data = some (-17) := by decide

example : QRank.parseInt64 "9z".data = none := by decide

example : QRank.parseInt64 "".data = none := by decide

example : QRank.parseInt64 "9223372036854775808".data = none := by decide

example : QRank.parseInt64 "-9223372036854775808".data =
    some (-9223372036854775808) := by decide

example : QRank.natDecChars 10374 = "10374".data := by decide

example : QRank.natDecDigits 0 = [0x30] := by decide

open QRank in
example : formatLine (B "als") (B "wikipedia") (B "Wähe") (B "Q2595950") =
    B "gsw.wikipedia/wähe Q2595950" := by decide

open QRank in
example : formatLine (B "az") (B "wikipedia") (B "BAKI") (B "Q9248") =
    B "az.wikipedia/bakı Q9248" := by decide

open QRank in
example : formatLine (B "azx") (B "wikipedia") (B "BAKI") (B "Q9248") =
    B "azx.wikipedia/baki Q9248" := by decide

open QRank in
example : formatLine (B "bat_smg") (B "wikipedia") (B "Metā") (B "Q577") =
    B "sgs.wikipedia/metā Q577" := by decide

open QRank in
example : formatLine (B "de") (B "wikipedia") (B "Straße") (B "Q34442") =
    B "de.wikipedia/strasse Q34442" := by decide

open QRank in
example : formatLine (B "incubator") (B "wikipedia") (B "Wp/cpx/Teng-cing-chī") (B "Q11736") =
    B "cpx.wikipedia/teng-cing-chī Q11736" := by decide

open QRank in
example : formatLine (B "meta") (B "wikimedia") (B "Main Page") (B "Q5296") =
    B "und.metawiki/main_page Q5296" := by decide

open QRank in
example : formatLine (B "nds-nl") (B "wikipedia") (B "Zwolle") (B "Q793") =
    B "nds-NL.wikipedia/zwolle Q793" := by decide

open QRank in
example : formatLine (B "tr") (B "wikipedia") (B "DİYARBAKIR") (B "Q83387") =
    B "tr.wikipedia/diyarbakır Q83387" := by decide

open QRank in
example : formatLine (B "xx") (B "wikipedia") (B "Zero\u0000C") (B "U+0000") =
    B "xx.wikipedia/zero_c U+0000" := by decide

open QRank in
example : formatLine (B "zh_yue") (B "wikipedia") (B "天津") (B "Q11736") =
    B "yue.wikipedia/天津 Q11736" := by decide

open QRank in
example : formatLine (B "") (B "wikidatawiki") (B "Project chat") (B "Q16503") =
    B "und.wikidata/project_chat Q16503" := by decide

open QRank in
example : formatLine (B "") (B "commons") (B "Zwolle") (B "Q793") =
    B "und.commons/zwolle Q793" := by decide

open QRank in
example : readPageviews false
    ["als.wikipedia Ägypten 4623 mobile-web 2 N1P1",
     "als.wikipedia Ägypten 8911 desktop 3 A2X1",
     "ang.wikipedia Lech_Wałęsa 10374 desktop 1 Q1"] =
    [B "gsw.wikipedia/ägypten 5", B "ang.wikipedia/lech_wałęsa 1"] := by decide

open QRank in
example : readPageviews false [] = [] := by decide

open QRank in
example : readPageviews false ["only three columns"] = [] := by decide

open QRank in
example : combineCounts ["a 2", "a 3", "b 1"] = .ok ["a 5\n", "b 1\n"] := rfl

open QRank in
example : combineCounts ["a 2", "a -2", "b 1"] = .ok ["b 1\n"] := rfl

open QRank in
example : combineCounts ["bad line x", "a 2"] = .ok ["a 2\n"] := rfl

open QRank in
example : combineCounts ["a x"] = .error () := rfl

open QRank in
example : daysFromCivil 1970 1 1 = 0 ∧ daysFromCivil 2000 3 1 = 11017 := by decide

open QRank in
example : yearOf 0 = 1970 ∧ yearOf (-1) = 1969 ∧ yearOf 11016 = 2000 := by decide

open QRank in
example : weekday 0 = 4 := by decide

open QRank in
example : isoWeek (daysFromCivil 2023 2 13) = (2023, 7) := by decide

open QRank in
example : ISOWeekStart 2018 (-1) = daysFromCivil 2017 12 18 := by decide

open QRank in
example : ISOWeekStart 2018 0 = daysFromCivil 2017 12 25 := by decide

open QRank in
example : ISOWeekStart 2018 2 = daysFromCivil 2018 1 8 := by decide

open QRank in
example : ISOWeekStart 2019 53 = daysFromCivil 2019 12 30 := by decide

open QRank in
example : ISOWeekStart 2019 54 = daysFromCivil 2020 1 6 := by decide

open QRank in
example : ParseISOWeek "2018-W51" = some (2018, 51) := by decide

open QRank in
example : ParseISOWeek "2023-12-24" = none := by decide

namespace QRank

theorem addI64_eq {a b : Int} (h : inI64 (a + b)) : addI64 a b = a + b := by
  obtain ⟨h1, h2⟩ := h
  unfold addI64 i64wrap
  omega

/-- `formatLine` is the WikiKey followed by one space and the value. -/
theorem formatLine_decomp (lang site title value : Bytes) :
    formatLine lang site title value = wikiKey lang site title ++ 0x20 :: value := by
  unfold formatLine wikiKey
  rcases rewriteLangSite lang site title with ⟨l, s, t⟩
  simp [List.append_assoc]

/-- C1: the key normalizer is pure and deterministic: two calls of
`formatLine` with the same `(lang, site, title)` — whether from the
pageview path or the sitelink path, which both pass through this one
function — produce byte-identical WikiKey strings (the part of the line
before the value), whatever the two values are. -/
theorem formatLine_key_deterministic (lang site title v₁ v₂ : Bytes) :
    ∃ k : Bytes, formatLine lang site title v₁ = k ++ 0x20 :: v₁ ∧
      formatLine lang site title v₂ = k ++ 0x20 :: v₂ :=
  ⟨wikiKey lang site title, formatLine_decomp lang site title v₁,
    formatLine_decomp lang site title v₂⟩

/-- C2: the three example daily-log lines produce exactly the two output
lines `gsw.wikipedia/ägypten 5` and `ang.wikipedia/lech_wałęsa 1`:
adjacent rows with equal (site, title) are summed over column 4, and the
emitted key is the normalized WikiKey. -/
theorem readPageviews_example :
    readPageviews false
      ["als.wikipedia Ägypten 4623 mobile-web 2 N1P1",
       "als.wikipedia Ägypten 8911 desktop 3 A2X1",
       "ang.wikipedia Lech_Wałęsa 10374 desktop 1 Q1"] =
      [strBytes "gsw.wikipedia/ägypten 5", strBytes "ang.wikipedia/lech_wałęsa 1"] := by
  decide

/-- C3 counterexample: the language `commons` is outside the claim's
rewrite table, yet `formatLine` does not pass it through unchanged: it
rewrites it to `(und, commons)` (util.go lines 112-114; similarly
`media`, `meta`, `sources`, `species`). -/
theorem formatLine_commons_not_passthrough :
    formatLine (B "commons") (B "wikimedia") (B "Zwolle") (B "Q793") =
        B "und.commons/zwolle Q793" ∧
      formatLine (B "commons") (B "wikimedia") (B "Zwolle") (B "Q793") ≠
        B "commons.wikimedia/zwolle Q793" := by
  constructor <;> decide

/-- C4 counterexample: `formatLine` appends the value verbatim, so a value
with trailing whitespace yields a line with trailing whitespace, contrary
to the claim's unconditional "no trailing whitespace". -/
theorem formatLine_trailing_whitespace :
    (formatLine (B "xx") (B "wikipedia") (B "t") (B "5 ")).getLast? = some 0x20 := by
  decide

/-- C6 counterexample: a line whose count column does not parse is not
silently skipped — `combineCounts` aborts with an error. -/
theorem combineCounts_unparseable_fatal :
    combineCounts ["a x"] = .error () := rfl

theorem rw_empty_other (site title : Bytes) (h1 : site ≠ B "wikidatawiki")
    (h2 : site ≠ B "wikimaniawiki") :
    rewriteLangSite [] site title = (B "und", site, title) := by
  unfold rewriteLangSite
  rw [if_pos rfl, if_neg h1, if_neg h2]

theorem rw_alias (p : Bytes × Bytes) (hp : p ∈ aliasTable) (site title : Bytes) :
    rewriteLangSite p.1 site title = (p.2, site, title) := by
  fin_cases hp <;> rfl

theorem rw_site (p : Bytes × Bytes) (hp : p ∈ siteRewriteTable) (site title : Bytes) :
    rewriteLangSite p.1 site title = (B "und", p.2, title) := by
  fin_cases hp <;> rfl

theorem rw_incubator_pos (site title p0 p1 p2 : Bytes)
    (hs : splitN3 title = [p0, p1, p2]) (hp : p0 = B "Wp" ∨ p0 = B "wp")
    (hl : p1.length < 20) :
    rewriteLangSite (B "incubator") site title = (toLowerB p1, site, p2) := by
  unfold rewriteLangSite
  simp only [hs]
  rw [if_neg (by decide), if_neg (by decide), if_neg (by decide),
    if_neg (by decide), if_neg (by decide), if_neg (by decide),
    if_neg (by decide), if_neg (by decide)]
  exact if_pos (And.intro hp hl)

theorem rw_incubator_neg (site title : Bytes)
    (h : ¬ ∃ p0 p1 p2, splitN3 title = [p0, p1, p2] ∧
        (p0 = B "Wp" ∨ p0 = B "wp") ∧ p1.length < 20) :
    rewriteLangSite (B "incubator") site title = (B "incubator", site, title) := by
  unfold rewriteLangSite
  rw [if_neg (by decide), if_neg (by decide), if_neg (by decide),
    if_neg (by decide), if_neg (by decide), if_neg (by decide),
    if_neg (by decide), if_neg (by decide), if_pos rfl]
  rcases h3 : splitN3 title with _ | ⟨p0, _ | ⟨p1, _ | ⟨p2, _ | ⟨p3, rest⟩⟩⟩⟩ <;>
    try rfl
  show (if (p0 = B "Wp" ∨ p0 = B "wp") ∧ List.length p1 < 20
      then (toLowerB p1, site, p2) else (B "incubator", site, title)) =
    (B "incubator", site, title)
  rw [if_neg]
  exact fun hc => h ⟨p0, p1, p2, h3, hc.1, hc.2⟩

theorem rw_passthrough (lang site title : Bytes) (h : lang ∉ tableLangs) :
    rewriteLangSite lang site title = (lang, site, title) := by
  simp only [tableLangs, List.mem_cons, List.not_mem_nil, or_false, not_or] at h
  obtain ⟨e01, e02, e03, e04, e05, e06, e07, e08, e09, e10, e11, e12, e13, e14,
    e15, e16, e17, e18, e19, e20, e21, e22, e23, e24, e25, e26, e27, e28, e29,
    e30, e31, e32⟩ := h
  unfold rewriteLangSite
  rw [if_neg e01, if_neg e02, if_neg e03, if_neg (not_or.mpr ⟨e04, e05⟩),
    if_neg e06, if_neg (not_or.mpr ⟨e07, e08⟩), if_neg e09,
    if_neg (not_or.mpr ⟨e10, e11⟩), if_neg e12, if_neg (not_or.mpr ⟨e13, e14⟩),
    if_neg e15, if_neg e16, if_neg (not_or.mpr ⟨e17, e18⟩),
    if_neg (not_or.mpr ⟨e19, e20⟩), if_neg e21, if_neg e22, if_neg e23,
    if_neg (not_or.mpr ⟨e24, e25⟩), if_neg e26,
    if_neg (not_or.mpr ⟨e27, e28⟩), if_neg (not_or.mpr ⟨e29, e30⟩),
    if_neg (not_or.mpr ⟨e31, e32⟩)]

/-- C3 (amended): the closed lang/site rewrite table implemented by
`formatLine`'s switch: empty lang maps to `und` with `wikidatawiki` /
`wikimaniawiki` renamed; each hyphen/underscore alias maps as listed in
`aliasTable`; `commons`, `media`, `meta`, `sources`, `species` map to
`und` with the canonical site; `az` and `tr` keep lang and site but
Turkic-lowercase the title; `incubator` with title `Wp/<lang>/<rest>`
(prefix `Wp` or `wp`, `<lang>` shorter than 20 bytes) becomes
`(<lang> lowercased, <site unchanged>, <rest>)` and otherwise passes
through; every lang outside the switch passes through unchanged. -/
theorem formatLine_rewrite_table :
    (∀ t, rewriteLangSite [] (B "wikidatawiki") t = (B "und", B "wikidata", t)) ∧
    (∀ t, rewriteLangSite [] (B "wikimaniawiki") t = (B "und", B "wikimania", t)) ∧
    (∀ s t, s ≠ B "wikidatawiki" → s ≠ B "wikimaniawiki" →
      rewriteLangSite [] s t = (B "und", s, t)) ∧
    (∀ p ∈ aliasTable, ∀ s t, rewriteLangSite p.1 s t = (p.2, s, t)) ∧
    (∀ p ∈ siteRewriteTable, ∀ s t, rewriteLangSite p.1 s t = (B "und", p.2, t)) ∧
    (∀ s t, rewriteLangSite (B "az") s t = (B "az", s, turkicLowerB t)) ∧
    (∀ s t, rewriteLangSite (B "tr") s t = (B "tr", s, turkicLowerB t)) ∧
    (∀ s t p0 p1 p2, splitN3 t = [p0, p1, p2] → (p0 = B "Wp" ∨ p0 = B "wp") →
      p1.length < 20 → rewriteLangSite (B "incubator") s t = (toLowerB p1, s, p2)) ∧
    (∀ s t, (¬ ∃ p0 p1 p2, splitN3 t = [p0, p1, p2] ∧
        (p0 = B "Wp" ∨ p0 = B "wp") ∧ p1.length < 20) →
      rewriteLangSite (B "incubator") s t = (B "incubator", s, t)) ∧
    (∀ lang s t, lang ∉ tableLangs → rewriteLangSite lang s t = (lang, s, t)) :=
  ⟨fun _ => rfl, fun _ => rfl, rw_empty_other, rw_alias, rw_site,
    fun _ _ => rfl, fun _ _ => rfl,
    fun s t p0 p1 p2 hs hp hl => rw_incubator_pos s t p0 p1 p2 hs hp hl,
    rw_incubator_neg, rw_passthrough⟩

/-- Concrete instances of `formatLine_rewrite_table`, discharging each of
its hypotheses at explicit inputs. -/
theorem formatLine_rewrite_table_witness :
    rewriteLangSite [] (B "frwiki") (B "T") = (B "und", B "frwiki", B "T") ∧
    rewriteLangSite (B "bat_smg") (B "wikipedia") (B "T") =
      (B "sgs", B "wikipedia", B "T") ∧
    rewriteLangSite (B "media") (B "wikipedia") (B "T") =
      (B "und", B "mediawiki", B "T") ∧
    rewriteLangSite (B "incubator") (B "wikipedia") (B "Wp/cpx/Tj") =
      (toLowerB (B "cpx"), B "wikipedia", B "Tj") ∧
    rewriteLangSite (B "incubator") (B "wikipedia") (B "Xp/x/y") =
      (B "incubator", B "wikipedia", B "Xp/x/y") ∧
    rewriteLangSite (B "xx") (B "wikipedia") (B "T") =
      (B "xx", B "wikipedia", B "T") := by
  refine ⟨?_, ?_, ?_, ?_, ?_, ?_⟩
  · exact formatLine_rewrite_table.2.2.1 (B "frwiki") (B "T")
      (by decide) (by decide)
  · exact formatLine_rewrite_table.2.2.2.1 (B "bat_smg", B "sgs") (by decide)
      (B "wikipedia") (B "T")
  · exact formatLine_rewrite_table.2.2.2.2.1 (B "media", B "mediawiki") (by decide)
      (B "wikipedia") (B "T")
  · exact formatLine_rewrite_table.2.2.2.2.2.2.2.1 (B "wikipedia") (B "Wp/cpx/Tj")
      (B "Wp") (B "cpx") (B "Tj") (by decide) (Or.inl rfl) (by decide)
  · refine formatLine_rewrite_table.2.2.2.2.2.2.2.2.1 (B "wikipedia") (B "Xp/x/y") ?_
    rintro ⟨p0, p1, p2, h3, hp, _⟩
    have hx : p0 = B "Xp" := by
      have : splitN3 (B "Xp/x/y") = [B "Xp", B "x", B "y"] := by decide
      rw [this] at h3
      exact (List.cons.injEq _ _ _ _ ▸ h3).1.symm
    rcases hp with hp | hp <;> (rw [hx] at hp; exact absurd hp (by decide))
  · exact formatLine_rewrite_table.2.2.2.2.2.2.2.2.2 (B "xx") (B "wikipedia") (B "T")
      (by decide)

theorem emitCp_eq_spec (c : Nat) : emitCp c = emitCpSpec c := by
  unfold emitCp emitCpSpec
  rcases Nat.lt_or_ge 0x20 ((utf8EncodeCp c).headD 0) with h | h
  · rw [if_pos h, if_neg (by omega)]
  · rw [if_neg (by omega), if_pos (by omega)]

theorem mem_encode_range (c b : Nat) (hb : b ∈ utf8EncodeCp c) :
    (b = c ∧ c < 0x80) ∨ 0x80 ≤ b := by
  unfold utf8EncodeCp at hb
  split_ifs at hb <;> simp only [List.mem_cons, List.not_mem_nil, or_false] at hb <;>
    omega

theorem mem_emitCpSpec_gt (c b : Nat) (hb : b ∈ emitCpSpec c) : 0x20 < b := by
  unfold emitCpSpec at hb
  split_ifs at hb with h
  · simp only [List.mem_cons, List.not_mem_nil, or_false] at hb
    omega
  · rcases mem_encode_range c b hb with ⟨rfl, hc⟩ | h80
    · have he : utf8EncodeCp b = [b] := by unfold utf8EncodeCp; rw [if_pos hc]
      rw [he] at h
      simpa using Nat.lt_of_not_le h
    · omega

theorem titleEmit_eq_spec (t : Bytes) : titleEmit t = titleSpec t := by
  unfold titleEmit titleSpec
  rw [funext emitCp_eq_spec]

theorem wikiKey_eq_spec (lang site title : Bytes) :
    wikiKey lang site title = wikiKeySpec lang site title := by
  unfold wikiKey wikiKeySpec
  rcases rewriteLangSite lang site title with ⟨l, s, t⟩
  show l ++ [0x2E] ++ s ++ [0x2F] ++ titleEmit t =
    l ++ [0x2E] ++ s ++ [0x2F] ++ titleSpec t
  rw [titleEmit_eq_spec]

/-- C4 (amended): every `formatLine` result is the WikiKey of the spec's
shape `<lang>.<site>/<title>` followed by exactly one ASCII space and the
value appended verbatim, where the emitted title is the case-folded,
NFC-normalized switch-rewritten title with every code point whose first
UTF-8 byte is ≤ 0x20 (space and all C0 controls) replaced by a single
`_` byte; every emitted title byte exceeds 0x20, and for a nonempty
value the line ends exactly as the value does (so there is no trailing
whitespace unless the value itself brings one). -/
theorem formatLine_shape :
    (∀ lang site title value : Bytes,
      formatLine lang site title value = wikiKeySpec lang site title ++ 0x20 :: value) ∧
    (∀ c b, b ∈ emitCpSpec c → 0x20 < b) ∧
    (∀ lang site title value : Bytes, value ≠ [] →
      (formatLine lang site title value).getLast? = value.getLast?) := by
  refine ⟨?_, mem_emitCpSpec_gt, ?_⟩
  · intro lang site title value
    rw [formatLine_decomp, wikiKey_eq_spec]
  · intro lang site title value hv
    rw [formatLine_decomp, show (0x20 : Nat) :: value = [0x20] ++ value from rfl,
      ← List.append_assoc, List.getLast?_append]
    cases hx : value.getLast? with
    | none => exact absurd (by simpa using hx) hv
    | some x => rfl

/-- Concrete instances of `formatLine_shape`, discharging its hypotheses
at explicit inputs. -/
theorem formatLine_shape_witness :
    (0x20 < 0x61) ∧
    (formatLine (B "xx") (B "wikipedia") (B "T") (B "7")).getLast? =
      (B "7").getLast? :=
  ⟨formatLine_shape.2.1 0x61 0x61 (by decide),
    formatLine_shape.2.2 (B "xx") (B "wikipedia") (B "T") (B "7") (by decide)⟩

/-- Any title produced by `parsePageviewLine` passed UTF-8 validation. -/
theorem parsePageviewLine_valid {line : String} {s : List Char} {t : Bytes} {c : Int}
    (h : parsePageviewLine line = some (s, t, c)) : utf8Valid t = true := by
  unfold parsePageviewLine at h
  split at h
  · split at h
    · exact absurd h (by simp)
    · split at h
      · next hv =>
        split at h
        · exact absurd h (by simp)
        · simp only [Option.some.injEq, Prod.mk.injEq] at h
          obtain ⟨-, ht, -⟩ := h
          rw [← ht]
          exact hv
      · exact absurd h (by simp)
  · exact absurd h (by simp)

/-- Every line emitted by `emitPV` from a UTF-8-valid title is a
`formatLine` result over that title with a positive count and a dotted
site. -/
theorem emitPV_shape {s : List Char} {t : Bytes} {c : Int} {out : Bytes}
    (hv : utf8Valid t = true) (ho : out ∈ emitPV s t c) :
    ∃ (site : List Char) (title : Bytes) (cnt : Int) (d : Nat),
      utf8Valid title = true ∧ 0 < cnt ∧
      idxCh site '.' = some d ∧
      out = formatLine (charsToBytes (site.take d)) (charsToBytes (site.drop (d + 1)))
        title (natDecDigits cnt.toNat) := by
  unfold emitPV at ho
  split at ho
  · split at ho
    · exact absurd ho (by simp)
    · next d hd =>
      simp only [List.mem_cons, List.not_mem_nil, or_false] at ho
      exact ⟨s, t, c, d, hv, by assumption, hd, ho⟩
  · exact absurd ho (by simp)

/-- Invariant of the scanning loop: if the pending title is UTF-8-valid,
every emitted line comes from `formatLine` on a validated row. -/
theorem rpvLoop_shape (lines : List String) :
    ∀ (tr : Bool) (n : Nat) (ls : List Char) (lt : Bytes) (lc : Int),
    utf8Valid lt = true → ∀ out ∈ rpvLoop tr n ls lt lc lines,
    ∃ (site : List Char) (title : Bytes) (cnt : Int) (d : Nat),
      utf8Valid title = true ∧ 0 < cnt ∧
      idxCh site '.' = some d ∧
      out = formatLine (charsToBytes (site.take d)) (charsToBytes (site.drop (d + 1)))
        title (natDecDigits cnt.toNat) := by
  induction lines with
  | nil =>
    intro tr n ls lt lc hv out ho
    rw [rpvLoop] at ho
    exact emitPV_shape hv ho
  | cons line rest IH =>
    intro tr n ls lt lc hv out ho
    rw [rpvLoop] at ho
    split at ho
    · exact emitPV_shape hv ho
    · split at ho
      · exact IH tr (n + 1) ls lt lc hv out ho
      · next site title c hp =>
        split at ho
        · exact IH tr (n + 1) ls lt _ hv out ho
        · rcases List.mem_append.mp ho with ho | ho
          · exact emitPV_shape hv ho
          · exact IH tr (n + 1) site title c (parsePageviewLine_valid hp) out ho

/-- C7: the normalizer's only conceivable failure is invalid UTF-8, and it
never drops or rejects inputs itself: `formatLine` returns a formatted
line for every input, and in the pageview reader every emitted line comes
from a `formatLine` call whose title already passed the caller's UTF-8
validation (malformed rows are dropped by the caller before the
normalizer is invoked). -/
theorem formatLine_total_callers_validate :
    (∀ lang site title value : Bytes, ∃ k,
      formatLine lang site title value = k ++ 0x20 :: value) ∧
    (∀ (testRun : Bool) (lines : List String), ∀ out ∈ readPageviews testRun lines,
      ∃ (site : List Char) (title : Bytes) (cnt : Int) (d : Nat),
      utf8Valid title = true ∧ 0 < cnt ∧
        idxCh site '.' = some d ∧
        out = formatLine (charsToBytes (site.take d)) (charsToBytes (site.drop (d + 1)))
          title (natDecDigits cnt.toNat)) := by
  constructor
  · intro lang site title value
    exact ⟨wikiKey lang site title, formatLine_decomp lang site title value⟩
  · intro testRun lines out ho
    exact rpvLoop_shape lines testRun 0 [] [] 0 rfl out ho

/-- Concrete instance of `formatLine_total_callers_validate`: the first
output of the example run is a `formatLine` result over a validated row. -/
theorem formatLine_total_callers_validate_witness :
    ∃ (site : List Char) (title : Bytes) (cnt : Int) (d : Nat),
      utf8Valid title = true ∧ 0 < cnt ∧
      idxCh site '.' = some d ∧
      strBytes "gsw.wikipedia/ägypten 5" =
        formatLine (charsToBytes (site.take d)) (charsToBytes (site.drop (d + 1)))
          title (natDecDigits cnt.toNat) :=
  formatLine_total_callers_validate.2 false
    ["als.wikipedia Ägypten 4623 mobile-web 2 N1P1",
     "als.wikipedia Ägypten 8911 desktop 3 A2X1",
     "ang.wikipedia Lech_Wałęsa 10374 desktop 1 Q1"]
    (strBytes "gsw.wikipedia/ägypten 5") (by decide)

theorem utf8Valid_cons1 (b0 : Nat) (h : b0 < 0x80) (rest : Bytes) :
    utf8Valid (b0 :: rest) = utf8Valid rest := by
  have ha : isAscii b0 = true := by simp only [isAscii, decide_eq_true_eq]; omega
  rcases rest with _ | ⟨b1, _ | ⟨b2, _ | ⟨b3, t⟩⟩⟩ <;> simp [utf8Valid, ha]

theorem utf8Valid_cons2 (b0 b1 : Nat) (rest : Bytes)
    (h0 : 0xC2 ≤ b0) (h0' : b0 ≤ 0xDF) (h1 : 0x80 ≤ b1) (h1' : b1 ≤ 0xBF) :
    utf8Valid (b0 :: b1 :: rest) = utf8Valid rest := by
  have ha : isAscii b0 = false := by
    simp only [isAscii, decide_eq_false_iff_not]; omega
  have h2 : isL2 b0 = true := by simp only [isL2, decide_eq_true_eq]; omega
  have hc1 : isCont b1 = true := by simp only [isCont, decide_eq_true_eq]; omega
  rcases rest with _ | ⟨b2, _ | ⟨b3, t⟩⟩ <;> simp [utf8Valid, ha, h2, hc1]

theorem utf8Valid_cons3 (b0 b1 b2 : Nat) (rest : Bytes)
    (h0 : 0xE0 ≤ b0) (h0' : b0 ≤ 0xEF) (h1 : 0x80 ≤ b1) (h1' : b1 ≤ 0xBF)
    (hE0 : b0 = 0xE0 → 0xA0 ≤ b1) (hED : b0 = 0xED → b1 ≤ 0x9F)
    (h2 : 0x80 ≤ b2) (h2' : b2 ≤ 0xBF) :
    utf8Valid (b0 :: b1 :: b2 :: rest) = utf8Valid rest := by
  have ha : isAscii b0 = false := by
    simp only [isAscii, decide_eq_false_iff_not]; omega
  have hL2 : isL2 b0 = false := by
    simp only [isL2, decide_eq_false_iff_not]; omega
  have hL3 : isL3 b0 = true := by simp only [isL3, decide_eq_true_eq]; omega
  have hok : okB1 b0 b1 = true := by
    unfold okB1
    split_ifs with w1 w2 w3 w4 <;>
      simp only [isCont, decide_eq_true_eq]
    · exact ⟨hE0 w1, h1'⟩
    · exact ⟨h1, hED w2⟩
    · omega
    · omega
    · omega
  have hc2 : isCont b2 = true := by simp only [isCont, decide_eq_true_eq]; omega
  rcases rest with _ | ⟨b3, t⟩ <;> simp [utf8Valid, ha, hL2, hL3, hok, hc2]

theorem utf8Valid_cons4 (b0 b1 b2 b3 : Nat) (rest : Bytes)
    (h0 : 0xF0 ≤ b0) (h0' : b0 ≤ 0xF4) (h1 : 0x80 ≤ b1) (h1' : b1 ≤ 0xBF)
    (hF0 : b0 = 0xF0 → 0x90 ≤ b1) (hF4 : b0 = 0xF4 → b1 ≤ 0x8F)
    (h2 : 0x80 ≤ b2) (h2' : b2 ≤ 0xBF) (h3 : 0x80 ≤ b3) (h3' : b3 ≤ 0xBF) :
    utf8Valid (b0 :: b1 :: b2 :: b3 :: rest) = utf8Valid rest := by
  have ha : isAscii b0 = false := by
    simp only [isAscii, decide_eq_false_iff_not]; omega
  have hL2 : isL2 b0 = false := by
    simp only [isL2, decide_eq_false_iff_not]; omega
  have hL3 : isL3 b0 = false := by
    simp only [isL3, decide_eq_false_iff_not]; omega
  have hL4 : isL4 b0 = true := by simp only [isL4, decide_eq_true_eq]; omega
  have hok : okB1 b0 b1 = true := by
    unfold okB1
    split_ifs with w1 w2 w3 w4 <;>
      simp only [isCont, decide_eq_true_eq]
    · omega
    · omega
    · exact ⟨hF0 w3, h1'⟩
    · exact ⟨h1, hF4 w4⟩
    · omega
  have hc2 : isCont b2 = true := by simp only [isCont, decide_eq_true_eq]; omega
  have hc3 : isCont b3 = true := by simp only [isCont, decide_eq_true_eq]; omega
  simp [utf8Valid, ha, hL2, hL3, hL4, hok, hc2, hc3]

/-- `utf8EncodeCp` always produces a well-formed UTF-8 prefix. -/
theorem utf8Valid_encode (c : Nat) (rest : Bytes) :
    utf8Valid (utf8EncodeCp c ++ rest) = utf8Valid rest := by
  unfold utf8EncodeCp
  split_ifs with h1 h2 h3 h4 h5
  · exact utf8Valid_cons1 c h1 rest
  · exact utf8Valid_cons2 _ _ rest (by omega) (by omega) (by omega) (by omega)
  · exact utf8Valid_cons3 _ _ _ rest (by decide) (by decide) (by decide) (by decide)
      (by decide) (by decide) (by decide) (by decide)
  · exact utf8Valid_cons3 _ _ _ rest (by omega) (by omega) (by omega) (by omega)
      (by intro h; omega) (by intro h; omega) (by omega) (by omega)
  · exact utf8Valid_cons4 _ _ _ _ rest (by omega) (by omega) (by omega) (by omega)
      (by intro h; omega) (by intro h; omega) (by omega) (by omega) (by omega)
      (by omega)
  · exact utf8Valid_cons3 _ _ _ rest (by decide) (by decide) (by decide) (by decide)
      (by decide) (by decide) (by decide) (by decide)

/-- The UTF-8 bytes of a character list are always valid — so in the
pageview reader the raw-title fallback always passes validation. -/
theorem utf8Valid_charsToBytes (l : List Char) : utf8Valid (charsToBytes l) = true := by
  induction l with
  | nil => rfl
  | cons c t IH =>
    show utf8Valid (utf8EncodeCp c.toNat ++ charsToBytes t) = true
    rw [utf8Valid_encode]
    exact IH

theorem ppl_not6 (line : String) (h : (fields line).length ≠ 6) :
    parsePageviewLine line = none := by
  unfold parsePageviewLine
  split
  · next heq =>
    have h6 : (fields line).length = 6 := by rw [heq]; rfl
    exact absurd h6 h
  · rfl

theorem ppl_enwg (line : String) (r1 r2 r3 r4 r5 : List Char)
    (h : fields line = ["en-wg.wikipedia".data, r1, r2, r3, r4, r5]) :
    parsePageviewLine line = none := by
  unfold parsePageviewLine
  rw [h]
  simp

theorem emitPV_nodot (s : List Char) (t : Bytes) (c : Int)
    (h : idxCh s '.' = none) : emitPV s t c = [] := by
  unfold emitPV
  split
  · rw [h]
  · rfl

theorem ppl_fallback (line : String) (c0 c1 c2 c3 c4 c5 : List Char) (c : Int)
    (h : fields line = [c0, c1, c2, c3, c4, c5])
    (hewg : c0 ≠ "en-wg.wikipedia".data)
    (hq : queryUnescape (charsToBytes c1) = none)
    (hc : parseInt64 c4 = some c) :
    parsePageviewLine line = some (c0, charsToBytes c1, c) := by
  unfold parsePageviewLine
  rw [h]
  show (if c0 = "en-wg.wikipedia".data then none
    else if utf8Valid ((queryUnescape (charsToBytes c1)).getD (charsToBytes c1)) then
      match parseInt64 c4 with
      | none => none
      | some c =>
        some (c0, (queryUnescape (charsToBytes c1)).getD (charsToBytes c1), c)
    else none) = some (c0, charsToBytes c1, c)
  rw [if_neg hewg, hq, Option.getD_none, if_pos (utf8Valid_charsToBytes c1), hc]

theorem ppl_invalid_skip (line : String) (c0 c1 c2 c3 c4 c5 : List Char) (t : Bytes)
    (h : fields line = [c0, c1, c2, c3, c4, c5])
    (hewg : c0 ≠ "en-wg.wikipedia".data)
    (hq : queryUnescape (charsToBytes c1) = some t)
    (hv : utf8Valid t = false) :
    parsePageviewLine line = none := by
  unfold parsePageviewLine
  rw [h]
  show (if c0 = "en-wg.wikipedia".data then none
    else if utf8Valid ((queryUnescape (charsToBytes c1)).getD (charsToBytes c1)) then
      match parseInt64 c4 with
      | none => none
      | some c =>
        some (c0, (queryUnescape (charsToBytes c1)).getD (charsToBytes c1), c)
    else none) = none
  rw [if_neg hewg, hq, Option.getD_some, if_neg (by simp [hv])]

theorem ppl_badcount_skip (line : String) (c0 c1 c2 c3 c4 c5 : List Char)
    (h : fields line = [c0, c1, c2, c3, c4, c5])
    (hewg : c0 ≠ "en-wg.wikipedia".data)
    (hc : parseInt64 c4 = none) :
    parsePageviewLine line = none := by
  unfold parsePageviewLine
  rw [h]
  show (if c0 = "en-wg.wikipedia".data then none
    else if utf8Valid ((queryUnescape (charsToBytes c1)).getD (charsToBytes c1)) then
      match parseInt64 c4 with
      | none => none
      | some c =>
        some (c0, (queryUnescape (charsToBytes c1)).getD (charsToBytes c1), c)
    else none) = none
  rw [if_neg hewg]
  by_cases hv :
    utf8Valid ((queryUnescape (charsToBytes c1)).getD (charsToBytes c1)) = true
  · rw [if_pos hv, hc]
  · rw [if_neg hv]

theorem rpvLoop_skip_step (n : Nat) (ls : List Char) (lt : Bytes) (lc : Int)
    (line : String) (rest : List String)
    (h : parsePageviewLine line = none) :
    rpvLoop false n ls lt lc (line :: rest) = rpvLoop false (n + 1) ls lt lc rest := by
  rw [rpvLoop, if_neg (by simp), h]

/-- C8: the pageview reader's per-line validation: lines without exactly
6 whitespace-separated columns are skipped; the obsolete site
`en-wg.wikipedia` is skipped; a site without a dot yields no output
line; when percent-decoding fails the raw title bytes are used (and they
always pass UTF-8 validation); a percent-decoded title that is invalid
UTF-8 is skipped; an unparseable column-4 count is skipped; and a
skipped line leaves the grouping state unchanged and processing
continues with the rest of the input. -/
theorem readPageviews_validation :
    (∀ line : String, (fields line).length ≠ 6 → parsePageviewLine line = none) ∧
    (∀ (line : String) (r1 r2 r3 r4 r5 : List Char),
      fields line = ["en-wg.wikipedia".data, r1, r2, r3, r4, r5] →
      parsePageviewLine line = none) ∧
    (∀ (s : List Char) (t : Bytes) (c : Int), idxCh s '.' = none →
      emitPV s t c = []) ∧
    (∀ (line : String) (c0 c1 c2 c3 c4 c5 : List Char) (c : Int),
      fields line = [c0, c1, c2, c3, c4, c5] → c0 ≠ "en-wg.wikipedia".data →
      queryUnescape (charsToBytes c1) = none → parseInt64 c4 = some c →
      parsePageviewLine line = some (c0, charsToBytes c1, c)) ∧
    (∀ (line : String) (c0 c1 c2 c3 c4 c5 : List Char) (t : Bytes),
      fields line = [c0, c1, c2, c3, c4, c5] → c0 ≠ "en-wg.wikipedia".data →
      queryUnescape (charsToBytes c1) = some t → utf8Valid t = false →
      parsePageviewLine line = none) ∧
    (∀ (line : String) (c0 c1 c2 c3 c4 c5 : List Char),
      fields line = [c0, c1, c2, c3, c4, c5] → c0 ≠ "en-wg.wikipedia".data →
      parseInt64 c4 = none → parsePageviewLine line = none) ∧
    (∀ (n : Nat) (ls : List Char) (lt : Bytes) (lc : Int) (line : String)
      (rest : List String), parsePageviewLine line = none →
      rpvLoop false n ls lt lc (line :: rest) = rpvLoop false (n + 1) ls lt lc rest) :=
  ⟨ppl_not6, ppl_enwg, emitPV_nodot, ppl_fallback, ppl_invalid_skip,
    ppl_badcount_skip, rpvLoop_skip_step⟩

/-- Concrete instances of `readPageviews_validation`, discharging each of
its hypotheses at explicit inputs. -/
theorem readPageviews_validation_witness :
    parsePageviewLine "only three columns" = none ∧
    parsePageviewLine "en-wg.wikipedia a 1 b 2 c" = none ∧
    emitPV "nodot".data (strBytes "t") 5 = [] ∧
    parsePageviewLine "x.wikipedia %zz 1 d 2 h" =
      some ("x.wikipedia".data, charsToBytes "%zz".data, 2) ∧
    parsePageviewLine "x.wikipedia %FF 1 d 2 h" = none ∧
    parsePageviewLine "x.wikipedia t 1 d 9z h" = none ∧
    rpvLoop false 0 [] [] 0 ["only three columns"] = rpvLoop false 1 [] [] 0 [] :=
  ⟨readPageviews_validation.1 "only three columns" (by decide),
   readPageviews_validation.2.1 "en-wg.wikipedia a 1 b 2 c"
     "a".data "1".data "b".data "2".data "c".data (by decide),
   readPageviews_validation.2.2.1 "nodot".data (strBytes "t") 5 (by decide),
   readPageviews_validation.2.2.2.1 "x.wikipedia %zz 1 d 2 h"
     "x.wikipedia".data "%zz".data "1".data "d".data "2".data "h".data 2
     (by decide) (by decide) (by decide) (by decide),
   readPageviews_validation.2.2.2.2.1 "x.wikipedia %FF 1 d 2 h"
     "x.wikipedia".data "%FF".data "1".data "d".data "2".data "h".data [0xFF]
     (by decide) (by decide) (by decide) (by decide),
   readPageviews_validation.2.2.2.2.2.1 "x.wikipedia t 1 d 9z h"
     "x.wikipedia".data "t".data "1".data "d".data "9z".data "h".data
     (by decide) (by decide) (by decide),
   readPageviews_validation.2.2.2.2.2.2 0 [] [] 0 "only three columns" []
     (by decide)⟩

theorem ccLoop_skip (lk : List Char) (lc : Int) (line : List Char)
    (rest : List (List Char)) (h : (splitSp line).length ≠ 2) :
    ccLoop lk lc (line :: rest) = ccLoop lk lc rest := by
  rw [ccLoop]
  rcases hs : splitSp line with _ | ⟨k, _ | ⟨c, _ | ⟨d, t⟩⟩⟩ <;> try rfl
  rw [hs] at h
  exact absurd rfl h

theorem ccLoop_fatal (lk : List Char) (lc : Int) (line k cnt : List Char)
    (rest : List (List Char)) (hs : splitSp line = [k, cnt])
    (hc : parseInt64 cnt = none) :
    ccLoop lk lc (line :: rest) = .error () := by
  rw [ccLoop, hs]
  show (match parseInt64 cnt with
    | none => Except.error ()
    | some c =>
      if k = lk then ccLoop lk (addI64 lc c) rest
      else
        match ccLoop k c rest with
        | .ok out => .ok (writeCountM lk lc ++ out)
        | .error e => .error e) = Except.error ()
  rw [hc]

/-- C6 (amended): the Count Combiner silently skips input lines that do
not have exactly 2 space-separated fields, continuing with subsequent
lines and leaving its accumulated state unchanged; a parse error on the
count column is fatal — `combineCounts` returns with an error. -/
theorem combineCounts_skip_and_fatal :
    (∀ (lk : List Char) (lc : Int) (line : List Char) (rest : List (List Char)),
      (splitSp line).length ≠ 2 → ccLoop lk lc (line :: rest) = ccLoop lk lc rest) ∧
    (∀ (lk : List Char) (lc : Int) (line k cnt : List Char) (rest : List (List Char)),
      splitSp line = [k, cnt] → parseInt64 cnt = none →
      ccLoop lk lc (line :: rest) = .error ()) :=
  ⟨ccLoop_skip, ccLoop_fatal⟩

/-- Concrete instances of `combineCounts_skip_and_fatal`, discharging its
hypotheses at explicit inputs. -/
theorem combineCounts_skip_and_fatal_witness :
    ccLoop "x".data 7 ("a b c".data :: ["k 1".data]) = ccLoop "x".data 7 ["k 1".data] ∧
    ccLoop "x".data 7 ("a z".data :: ["k 1".data]) = .error () :=
  ⟨combineCounts_skip_and_fatal.1 "x".data 7 "a b c".data ["k 1".data] (by decide),
   combineCounts_skip_and_fatal.2 "x".data 7 "a z".data "a".data "z".data
     ["k 1".data] (by decide) (by decide)⟩

theorem splitSpAux_nospace (l : List Char) (h : ' ' ∉ l) :
    ∀ acc : List Char, splitSpAux l acc = [acc.reverse ++ l] := by
  induction l with
  | nil => intro acc; simp [splitSpAux]
  | cons c t IH =>
    intro acc
    have hc : ¬(c = ' ') := by
      intro he
      exact h (by rw [he]; exact List.mem_cons_self _ _)
    rw [splitSpAux, if_neg hc, IH (fun hm => h (List.mem_cons_of_mem c hm))]
    simp

theorem splitSpAux_break (cs : List Char) (hc : ' ' ∉ cs) (k : List Char)
    (hk : ' ' ∉ k) : ∀ acc : List Char,
    splitSpAux (k ++ ' ' :: cs) acc = [acc.reverse ++ k, cs] := by
  induction k with
  | nil =>
    intro acc
    rw [List.nil_append, splitSpAux, if_pos rfl, splitSpAux_nospace cs hc]
    simp
  | cons c t IH =>
    intro acc
    have hcc : ¬(c = ' ') := by
      intro he
      exact hk (by rw [he]; exact List.mem_cons_self _ _)
    rw [List.cons_append, splitSpAux, if_neg hcc,
      IH (fun hm => hk (List.mem_cons_of_mem c hm))]
    simp

theorem splitSp_pair (k cs : List Char) (hk : ' ' ∉ k) (hc : ' ' ∉ cs) :
    splitSp (k ++ ' ' :: cs) = [k, cs] := by
  unfold splitSp
  rw [splitSpAux_break cs hc k hk]
  simp

theorem ccLoop_cons_pair (lk : List Char) (lc : Int) (line k cnt : List Char)
    (rest : List (List Char)) (hs : splitSp line = [k, cnt]) (v : Int)
    (hv : parseInt64 cnt = some v) :
    ccLoop lk lc (line :: rest) =
      if k = lk then ccLoop lk (addI64 lc v) rest
      else
        match ccLoop k v rest with
        | .ok out => .ok (writeCountM lk lc ++ out)
        | .error e => .error e := by
  rw [ccLoop, hs]
  show (match parseInt64 cnt with
    | none => Except.error ()
    | some c =>
      if k = lk then ccLoop lk (addI64 lc c) rest
      else
        match ccLoop k c rest with
        | .ok out => .ok (writeCountM lk lc ++ out)
        | .error e => .error e) = _
  rw [hv]

theorem ccLoop_run (t : List (List Char)) :
    ∀ (k : List Char) (lc : Int) (rest : List (List Char)),
    ' ' ∉ k →
    (∀ c ∈ t, ' ' ∉ c ∧ (parseInt64 c).isSome) →
    (∀ n : Nat, n ≤ t.length → inI64 (lc + ((t.map runVal).take n).sum)) →
    ccLoop k lc ((t.map (fun c => k ++ ' ' :: c)) ++ rest) =
      ccLoop k (lc + (t.map runVal).sum) rest := by
  induction t with
  | nil => intro k lc rest _ _ _; simp
  | cons c t IH =>
    intro k lc rest hk hcs hr
    obtain ⟨hcsp, hsome⟩ := hcs c (List.mem_cons_self _ _)
    obtain ⟨v, hv⟩ := Option.isSome_iff_exists.mp hsome
    have hvr : runVal c = v := by simp [runVal, hv]
    rw [List.map_cons, List.cons_append,
      ccLoop_cons_pair k lc (k ++ ' ' :: c) k c _ (splitSp_pair k c hk hcsp) v hv,
      if_pos rfl]
    have h1 : inI64 (lc + v) := by
      have h2 := hr 1 (by simp)
      simpa [hvr] using h2
    have hr2 : ∀ n : Nat, n ≤ t.length →
        inI64 ((lc + v) + ((t.map runVal).take n).sum) := by
      intro n hn
      have h3 := hr (n + 1) (by simpa using Nat.succ_le_succ hn)
      simpa [hvr, add_assoc] using h3
    rw [addI64_eq h1,
      IH k (lc + v) rest hk (fun x hx => hcs x (List.mem_cons_of_mem c hx)) hr2,
      show lc + v + (t.map runVal).sum = lc + ((c :: t).map runVal).sum from by
        rw [List.map_cons, List.sum_cons, hvr]; ring]

theorem ccLoop_runs (runs : List (List Char × List (List Char))) :
    ∀ (lk : List Char) (lc : Int),
    lk ∉ runs.map Prod.fst →
    (runs.map Prod.fst).Pairwise (· ≠ ·) →
    (∀ r ∈ runs, ' ' ∉ r.1) →
    (∀ r ∈ runs, ∀ cs ∈ r.2, ' ' ∉ cs ∧ (parseInt64 cs).isSome) →
    (∀ r ∈ runs, ∀ n : Nat, n ≤ r.2.length →
      inI64 (((r.2.map runVal).take n).sum)) →
    ccLoop lk lc (runLinesD runs) = .ok (writeCountM lk lc ++ combinedOutD runs) := by
  induction runs with
  | nil =>
    intro lk lc _ _ _ _ _
    simp [runLinesD, combinedOutD, ccLoop]
  | cons r rest IH =>
    intro lk lc hnot hdist hkey hcnt hrange
    obtain ⟨k, cs⟩ := r
    have hlk : lk ≠ k := by
      intro he
      exact hnot (by rw [he]; exact List.mem_cons_self _ _)
    have hknotrest : k ∉ rest.map Prod.fst := by
      intro hm
      exact ((List.pairwise_cons.mp hdist).1 _ hm) rfl
    have hdist' := (List.pairwise_cons.mp hdist).2
    have hnot' : lk ∉ rest.map Prod.fst := fun hm => hnot (List.mem_cons_of_mem _ hm)
    have hkey' : ∀ r ∈ rest, ' ' ∉ r.1 := fun r hr => hkey r (List.mem_cons_of_mem _ hr)
    have hcnt' : ∀ r ∈ rest, ∀ cs ∈ r.2, ' ' ∉ cs ∧ (parseInt64 cs).isSome :=
      fun r hr => hcnt r (List.mem_cons_of_mem _ hr)
    have hrange' : ∀ r ∈ rest, ∀ n : Nat, n ≤ r.2.length →
        inI64 (((r.2.map runVal).take n).sum) :=
      fun r hr => hrange r (List.mem_cons_of_mem _ hr)
    cases cs with
    | nil =>
      have hl : runLinesD ((k, ([] : List (List Char))) :: rest) = runLinesD rest := by
        simp [runLinesD]
      have ho : combinedOutD ((k, ([] : List (List Char))) :: rest) =
          combinedOutD rest := by
        simp [combinedOutD, runSum]
      rw [hl, ho]
      exact IH lk lc hnot' hdist' hkey' hcnt' hrange'
    | cons c t =>
      obtain ⟨hcsp, hsome⟩ :=
        hcnt (k, c :: t) (List.mem_cons_self _ _) c (List.mem_cons_self _ _)
      obtain ⟨v, hv⟩ := Option.isSome_iff_exists.mp hsome
      have hvr : runVal c = v := by simp [runVal, hv]
      have hkns : ' ' ∉ k := hkey (k, c :: t) (List.mem_cons_self _ _)
      have hl : runLinesD ((k, c :: t) :: rest) =
          (k ++ ' ' :: c) :: ((t.map (fun cc => k ++ ' ' :: cc)) ++ runLinesD rest) := by
        simp [runLinesD]
      have hrun : ∀ cc ∈ t, ' ' ∉ cc ∧ (parseInt64 cc).isSome :=
        fun x hx => hcnt (k, c :: t) (List.mem_cons_self _ _) x (List.mem_cons_of_mem c hx)
      have hr2 : ∀ n : Nat, n ≤ t.length →
          inI64 (v + ((t.map runVal).take n).sum) := by
        intro n hn
        have h3 := hrange (k, c :: t) (List.mem_cons_self _ _) (n + 1)
          (by simpa using Nat.succ_le_succ hn)
        simpa [hvr] using h3
      have hsum : runSum (k, c :: t) = v + (t.map runVal).sum := by
        simp [runSum, hvr]
      rw [hl, ccLoop_cons_pair lk lc (k ++ ' ' :: c) k c _
          (splitSp_pair k c hkns hcsp) v hv,
        if_neg (fun he => hlk he.symm),
        ccLoop_run t k v (runLinesD rest) hkns hrun hr2,
        IH k (v + (t.map runVal).sum) hknotrest hdist' hkey' hcnt' hrange']
      show Except.ok (writeCountM lk lc ++
          (writeCountM k (v + (t.map runVal).sum) ++ combinedOutD rest)) =
        Except.ok (writeCountM lk lc ++ combinedOutD ((k, c :: t) :: rest))
      have hout : combinedOutD ((k, c :: t) :: rest) =
          writeCountM k (v + (t.map runVal).sum) ++ combinedOutD rest := by
        rw [← hsum]
        by_cases hpos : 0 < runSum (k, c :: t)
        · rw [writeCountM, if_neg (by omega)]
          simp [combinedOutD, List.filterMap_cons, if_pos hpos]
        · rw [writeCountM, if_pos (by omega)]
          simp [combinedOutD, List.filterMap_cons, if_neg hpos]
      rw [hout]

/-- C5: on well-formed input sorted by key (represented as runs of equal
keys, with pairwise-distinct nonempty space-free keys and parseable
counts whose per-run partial sums stay in int64 range), `combineCounts`
emits exactly one line per key whose total is positive, carrying the sum
of that key's counts, and no line for a key whose total is ≤ 0. -/
theorem combineCounts_sorted (runs : List (List Char × List (List Char)))
    (hdist : (runs.map Prod.fst).Pairwise (· ≠ ·))
    (hkey : ∀ r ∈ runs, r.1 ≠ [] ∧ ' ' ∉ r.1)
    (hcnt : ∀ r ∈ runs, ∀ cs ∈ r.2, ' ' ∉ cs ∧ (parseInt64 cs).isSome)
    (hrange : ∀ r ∈ runs, ∀ n : Nat, n ≤ r.2.length →
      inI64 (((r.2.map runVal).take n).sum)) :
    combineCounts (runLines runs) = .ok (combinedOut runs) := by
  unfold combineCounts
  have hmap : (runLines runs).map String.data = runLinesD runs := by
    simp [runLines, runLinesD, List.map_flatMap, Function.comp_def]
  have hnot : ([] : List Char) ∉ runs.map Prod.fst := by
    intro hm
    obtain ⟨r, hr, he⟩ := List.mem_map.mp hm
    exact (hkey r hr).1 he
  rw [hmap, ccLoop_runs runs [] 0 hnot hdist (fun r hr => (hkey r hr).2) hcnt hrange]
  show Except.ok ((writeCountM [] 0 ++ combinedOutD runs).map String.mk) = _
  rw [show writeCountM [] 0 = [] from rfl, List.nil_append]
  unfold combinedOut combinedOutD
  rw [List.map_filterMap]
  have hfun : (fun x => Option.map String.mk
      (if 0 < runSum x then
        some (x.1 ++ ' ' :: (natDecChars (runSum x).toNat ++ ['\n'])) else none)) =
      (fun r => if 0 < runSum r then
        some (String.mk (r.1 ++ ' ' :: (natDecChars (runSum r).toNat ++ ['\n'])))
      else none) := by
    funext r
    by_cases hpos : 0 < runSum r <;> simp [hpos]
  rw [hfun]

/-- Concrete instance of `combineCounts_sorted`, discharging each of its
hypotheses at an explicit input. -/
theorem combineCounts_sorted_witness :
    combineCounts (runLines [("a".data, ["2".data, "3".data]),
        ("b".data, ["1".data]), ("z".data, ["-4".data])]) =
      .ok (combinedOut [("a".data, ["2".data, "3".data]),
        ("b".data, ["1".data]), ("z".data, ["-4".data])]) :=
  combineCounts_sorted
    [("a".data, ["2".data, "3".data]), ("b".data, ["1".data]),
     ("z".data, ["-4".data])]
    (by decide) (by decide) (by decide)
    (by
      intro r hr n hn
      fin_cases hr <;>
        simp only [List.length_cons, List.length_nil] at hn <;>
        interval_cases n <;> exact ⟨by decide, by decide⟩)

theorem weekday_ISOWeekStart (y w : Int) : weekday (ISOWeekStart y w) = 1 := by
  simp only [ISOWeekStart, weekday]
  generalize daysFromCivil y 7 1 = a
  by_cases h : (a + 4) % 7 = 0
  · rw [if_pos h]
    generalize (isoWeek (a - 6)).2 = w0
    omega
  · rw [if_neg h]
    generalize (isoWeek (a - ((a + 4) % 7 - 1))).2 = w0
    omega

/-- C9: the ISO-week helpers satisfy the stated values —
`ParseISOWeek "2023-W07"` is `(2023, 7)` without error,
`ISOWeekStart 2019 1` is 2018-12-31 and `ISOWeekStart 2018 1` is
2018-01-01 — and in general `ISOWeekStart` lands on a Monday for every
year and week, and round-trips through `isoWeek` to the requested
`(year, week)` (checked for the years 2015-2030 and weeks 1-52). -/
theorem iso_week_helpers :
    ParseISOWeek "2023-W07" = some (2023, 7) ∧
    ISOWeekStart 2019 1 = daysFromCivil 2018 12 31 ∧
    ISOWeekStart 2018 1 = daysFromCivil 2018 1 1 ∧
    (∀ y w : Int, weekday (ISOWeekStart y w) = 1) ∧
    (∀ dy : Nat, dy < 16 → ∀ dw : Nat, dw < 52 →
      isoWeek (ISOWeekStart (2015 + (dy : Int)) (1 + (dw : Int))) =
        (2015 + (dy : Int), 1 + (dw : Int))) :=
  ⟨by decide, by decide, by decide, weekday_ISOWeekStart, by decide⟩

/-- Concrete instance of `iso_week_helpers`, discharging its bounded
hypotheses at an explicit year and week. -/
theorem iso_week_helpers_witness :
    isoWeek (ISOWeekStart (2015 + ((4 : Nat) : Int)) (1 + ((0 : Nat) : Int))) =
      (2015 + ((4 : Nat) : Int), 1 + ((0 : Nat) : Int)) :=
  iso_week_helpers.2.2.2.2 4 (by decide) 0 (by decide)

theorem isoFind_none_iff (l : List Char) :
    isoFind l = none ↔ ∀ i : Nat, isoGrab (l.drop i) = none := by
  induction l with
  | nil =>
    constructor
    · intro _ i
      rw [List.drop_nil]
      rfl
    · intro _
      rfl
  | cons a t IH =>
    rw [isoFind]
    cases hg : isoGrab (a :: t) with
    | some p =>
      constructor
      · intro hc
        exact absurd hc (by simp)
      · intro hall
        have h0 := hall 0
        rw [List.drop_zero, hg] at h0
        exact absurd h0 (by simp)
    | none =>
      show isoFind t = none ↔ _
      rw [IH]
      constructor
      · intro hall i
        cases i with
        | zero => rw [List.drop_zero]; exact hg
        | succ j => rw [List.drop_succ_cons]; exact hall j
      · intro hall j
        have hj := hall (j + 1)
        rw [List.drop_succ_cons] at hj
        exact hj

/-- C10: `ParseISOWeek` errors exactly when its argument has no substring
matching four digits, `-W`, two digits; the pattern being unanchored, an
input like `2023-W0712` or `x2023-W07y` succeeds with the digit groups
of the first embedded match. -/
theorem ParseISOWeek_unanchored :
    (∀ s : String, ParseISOWeek s = none ↔
      ∀ i : Nat, isoGrab (s.data.drop i) = none) ∧
    ParseISOWeek "2023-W0712" = some (2023, 7) ∧
    ParseISOWeek "x2023-W07y" = some (2023, 7) := by
  refine ⟨?_, by decide, by decide⟩
  intro s
  unfold ParseISOWeek
  rw [Option.map_eq_none']
  exact isoFind_none_iff s.data

end QRank
